import Mathlib

/-!
Verification of the match-outcome rating and evaluation engine of the sumo
repository (`sumo/match_prediction.py`): the temporal train/test splitter,
the online Elo-style rating model, and the evaluation harness.

Modelling conventions:
* Python float arithmetic is modelled with the real numbers `ℝ`.
* The `defaultdict(lambda: 1500)` of ratings is a total function `Nat → ℝ`
  that is `1500` everywhere initially; dictionary assignment is
  `Function.update`.
* The basho-date dictionary is a partial map `Nat → Option String`; a Python
  `KeyError` on a missing key is modelled by the `Except` error branch.
* Python `sorted` (a stable sort by a lexicographic key) is modelled by
  `List.mergeSort`, which is also stable.
* The `XGBoostModel` wraps an external gradient-boosting library and is out
  of scope for this development; the theorems below concern the Elo rating
  model objects of the harness.
-/

/-- Lexicographic comparison of character lists by code point: the semantics
of Python string comparison, used on ISO date strings. -/
def strLtB : List Char → List Char → Bool
  | [], [] => false
  | [], _ :: _ => true
  | _ :: _, [] => false
  | a :: as, b :: bs =>
    if a.val < b.val then true else if b.val < a.val then false else strLtB as bs

/-- Python `a < b` on strings: lexicographic by code point. -/
def strLt (a b : String) : Bool := strLtB a.data b.data

/-- The `Match` dataclass of `match_prediction.py`.  Heights and weights come
from a SQL `LEFT JOIN`, so they may be `NULL`; they are not used by the Elo
model. -/
structure Match where
  id : String
  basho_id : Nat
  rikishi1_id : Nat
  rikishi2_id : Nat
  winner_id : Nat
  day : Nat
  rikishi1_height : Option Int
  rikishi1_weight : Option Int
  rikishi2_height : Option Int
  rikishi2_weight : Option Int
deriving DecidableEq, Repr

/-- `train_test_split(matches, basho_dates, split_date)`: walks the match list
in order, appending each match to `train` when its basho start date is
strictly before `split_date` and to `test` otherwise.  Looking up a basho id
that is absent from `basho_dates` raises `KeyError` in Python; this is the
`Except.error` branch, carrying the offending basho id. -/
def train_test_split (ms : List Match) (basho_dates : Nat → Option String)
    (split_date : String) : Except Nat (List Match × List Match) :=
  match ms with
  | [] => Except.ok ([], [])
  | m :: rest =>
    match basho_dates m.basho_id with
    | none => Except.error m.basho_id
    | some date =>
      match train_test_split rest basho_dates split_date with
      | Except.error e => Except.error e
      | Except.ok (train, test) =>
        if strLt date split_date then Except.ok (m :: train, test)
        else Except.ok (train, m :: test)

/-- The predicate deciding the `train` side of the split: the match's basho
has a date on file and that date is strictly below the split date. -/
def goes_train (basho_dates : Nat → Option String) (split_date : String)
    (m : Match) : Bool :=
  match basho_dates m.basho_id with
  | some date => strLt date split_date
  | none => false

/-- The rating state of `EloModel`: `self.stats`, a
`defaultdict(lambda: 1500)` from rikishi id to rating. -/
abbrev RatingState := Nat → ℝ

/-- The initial rating state: every rikishi starts at the default 1500. -/
def initialStats : RatingState := fun _ => 1500

/-- `EloModel.predict(rikishi1, rikishi2)`: returns `rikishi1` when its
rating is strictly greater, otherwise `rikishi2`. -/
noncomputable def predict (stats : RatingState) (rikishi1 rikishi2 : Nat) : Nat :=
  if stats rikishi1 > stats rikishi2 then rikishi1 else rikishi2

/-- `EloModel.update(rikishi1, rikishi2, winner)`: the Elo update.  The state
writes `self.stats[rikishi1] = new_mean1` then `self.stats[rikishi2] =
new_mean2` are the two nested `Function.update`s (the later write wins, as in
a Python dict). -/
noncomputable def update (K : ℝ) (stats : RatingState)
    (rikishi1 rikishi2 winner : Nat) : RatingState :=
  let mean1 := stats rikishi1
  let mean2 := stats rikishi2
  let exp1 := 1 / (1 + (10 : ℝ) ^ ((mean2 - mean1) / 400))
  let exp2 := 1 - exp1
  let s1 : ℝ := if winner = rikishi1 then 1 else 0
  let s2 := 1 - s1
  Function.update (Function.update stats rikishi1 (mean1 + K * (s1 - exp1)))
    rikishi2 (mean2 + K * (s2 - exp2))

/-- The sort key of `sort_matches`: lexicographic on `(basho_id, day)`. -/
def matchLE (a b : Match) : Bool :=
  decide (a.basho_id < b.basho_id ∨ (a.basho_id = b.basho_id ∧ a.day ≤ b.day))

/-- `sort_matches(matches)`: stable sort by the key `(m.basho_id, m.day)`. -/
def sort_matches (ms : List Match) : List Match :=
  ms.mergeSort matchLE

/-- One iteration of the loop in `EloModel.evaluate`: carry the rating state
and the `correct` counter; predict from the current state, compare with the
winner, then apply the update. -/
noncomputable def evalStep (K : ℝ) (sc : RatingState × Nat) (m : Match) :
    RatingState × Nat :=
  let pred := predict sc.1 m.rikishi1_id m.rikishi2_id
  (update K sc.1 m.rikishi1_id m.rikishi2_id m.winner_id,
    if pred = m.winner_id then sc.2 + 1 else sc.2)

/-- `EloModel.evaluate(matches)` together with the final rating state: folds
the loop body over `sort_matches matches` and returns
`correct / len(matches)`, or `0` when `matches` is empty. -/
noncomputable def evaluateS (K : ℝ) (stats : RatingState) (ms : List Match) :
    RatingState × ℝ :=
  let r := (sort_matches ms).foldl (evalStep K) (stats, 0)
  (r.1, if ms.isEmpty then 0 else (r.2 : ℝ) / (ms.length : ℝ))

/-- The return value of `EloModel.evaluate(matches)`. -/
noncomputable def evaluate (K : ℝ) (stats : RatingState) (ms : List Match) : ℝ :=
  (evaluateS K stats ms).2

/-- `EloModel.fit(matches)` together with the final rating state: the method
body is exactly `return self.evaluate(matches)`. -/
noncomputable def fitS (K : ℝ) (stats : RatingState) (ms : List Match) :
    RatingState × ℝ :=
  evaluateS K stats ms

/-- The return value of `EloModel.fit(matches)`. -/
noncomputable def fit (K : ℝ) (stats : RatingState) (ms : List Match) : ℝ :=
  (fitS K stats ms).2

/-- The walk-forward final state: the state obtained by applying `update`
match by match, in list order. -/
noncomputable def walkState (K : ℝ) (stats : RatingState) : List Match → RatingState
  | [] => stats
  | m :: rest =>
    walkState K (update K stats m.rikishi1_id m.rikishi2_id m.winner_id) rest

/-- The walk-forward correct count: for each match the prediction is taken
from the state **before** that match's own update is applied, so the count
for a match never depends on that match's outcome. -/
noncomputable def walkCorrect (K : ℝ) (stats : RatingState) : List Match → Nat
  | [] => 0
  | m :: rest =>
    (if predict stats m.rikishi1_id m.rikishi2_id = m.winner_id then 1 else 0)
      + walkCorrect K (update K stats m.rikishi1_id m.rikishi2_id m.winner_id) rest

/-- The learning rates of the Elo models built in `__main__`:
`EloModel(K=8) … EloModel(K=128)`. -/
def eloKs : List ℝ := [8, 16, 32, 64, 128]

/-- What the `__main__` loop does with one Elo model: `fit` on the train set
(from a fresh state) and `evaluate` on the test set from the state the fit
left behind; record both accuracies. -/
noncomputable def run_model (K : ℝ) (train test : List Match) : ℝ × ℝ :=
  let fitted := fitS K initialStats train
  let tested := evaluateS K fitted.1 test
  (fitted.2, tested.2)

/-- The Elo part of the `__main__` harness: the `for model in models` loop,
accumulating `(K, train_accuracy, test_accuracy)` in construction order. -/
noncomputable def harness (train test : List Match) : List (ℝ × ℝ × ℝ) :=
  eloKs.foldl (fun accs K => accs ++ [(K, run_model K train test)]) []

/-- Train accuracy of a fresh Elo model with learning rate `K`, the selection
criterion named by the spec's sweep protocol. -/
noncomputable def spec_train_acc (K : ℝ) (train : List Match) : ℝ :=
  (evaluateS K initialStats train).2

/-- Formalisation of the spec's selection rule over a candidate list: keep
the current best and replace it only on a strictly larger train accuracy, so
ties resolve to the earliest candidate. -/
noncomputable def spec_select_K (train : List Match) : List ℝ → ℝ → ℝ
  | [], best => best
  | K :: rest, best =>
    spec_select_K train rest
      (if spec_train_acc K train > spec_train_acc best train then K else best)

/-- The spec's selected learning rate: the first candidate of `eloKs`
reaching the maximal train accuracy. -/
noncomputable def spec_best_K (train : List Match) : ℝ :=
  spec_select_K train [16, 32, 64, 128] 8

/-- The single report the spec's harness protocol would produce for the
rating model: fit a fresh model with the selected `K` on train, evaluate it
on test. -/
noncomputable def spec_selected_report (train test : List Match) : ℝ × ℝ × ℝ :=
  (spec_best_K train, run_model (spec_best_K train) train test)

/-- The ordering the spec prescribes for sequential processing: primary key
the basho start date looked up in the date index, secondary key the day. -/
def date_key_le (basho_dates : Nat → Option String) (a b : Match) : Bool :=
  strLt ((basho_dates a.basho_id).getD "") ((basho_dates b.basho_id).getD "")
    || (decide ((basho_dates a.basho_id).getD "" = (basho_dates b.basho_id).getD "")
        && decide (a.day ≤ b.day))

/-- Stable sort in the spec's prescribed order (start date, then day). -/
def sort_matches_by_date (basho_dates : Nat → Option String)
    (ms : List Match) : List Match :=
  ms.mergeSort (date_key_le basho_dates)

/-- Fixture: a bout in basho 2, day 1, rikishi 1 beats rikishi 2. -/
def mA : Match := ⟨"a", 2, 1, 2, 1, 1, none, none, none, none⟩

/-- Fixture: a bout in basho 1, day 1, rikishi 2 beats rikishi 1. -/
def mB : Match := ⟨"b", 1, 1, 2, 2, 1, none, none, none, none⟩

/-- Fixture date index in which basho 1 starts later than basho 2, so that
basho-id order and date order disagree. -/
def exDates : Nat → Option String := fun n =>
  if n = 1 then some "2024-01-01" else if n = 2 then some "2023-01-01" else none

/-- Fixture date index for the splitter witnesses: bashos 1 and 2 dated, all
other ids absent. -/
def wDates : Nat → Option String := fun n =>
  if n = 1 then some "2022-05-01" else if n = 2 then some "2023-05-01" else none

/-- Fixture: a bout whose basho (id 7) has no date on file in `wDates`. -/
def mC : Match := ⟨"c", 7, 3, 4, 3, 2, none, none, none, none⟩

/-! ### Helper lemmas -/

theorem update_apply_fst (K : ℝ) (stats : RatingState) (a b w : Nat) (hab : a ≠ b) :
    update K stats a b w a
      = stats a + K * ((if w = a then (1 : ℝ) else 0)
          - 1 / (1 + (10 : ℝ) ^ ((stats b - stats a) / 400))) := by
  simp [update, Function.update_apply, hab, Ne.symm hab]

theorem update_apply_snd (K : ℝ) (stats : RatingState) (a b w : Nat) (_hab : a ≠ b) :
    update K stats a b w b
      = stats b + K * ((1 - (if w = a then (1 : ℝ) else 0))
          - (1 - 1 / (1 + (10 : ℝ) ^ ((stats b - stats a) / 400)))) := by
  simp [update, Function.update_apply]

theorem foldl_evalStep_eq (K : ℝ) (l : List Match) :
    ∀ (stats : RatingState) (c : Nat),
      l.foldl (evalStep K) (stats, c) = (walkState K stats l, c + walkCorrect K stats l) := by
  induction l with
  | nil =>
    intro stats c
    simp [walkState, walkCorrect]
  | cons m rest ih =>
    intro stats c
    rw [List.foldl_cons,
      show evalStep K (stats, c) m
          = (update K stats m.rikishi1_id m.rikishi2_id m.winner_id,
            if predict stats m.rikishi1_id m.rikishi2_id = m.winner_id then c + 1 else c)
        from rfl,
      ih]
    simp only [walkState, walkCorrect, Prod.mk.injEq, true_and]
    split <;> omega

theorem evaluateS_eq_walk (K : ℝ) (stats : RatingState) (ms : List Match) :
    evaluateS K stats ms
      = (walkState K stats (sort_matches ms),
          if ms.isEmpty then 0
          else (walkCorrect K stats (sort_matches ms) : ℝ) / (ms.length : ℝ)) := by
  unfold evaluateS
  rw [foldl_evalStep_eq K (sort_matches ms) stats 0]
  simp

theorem evaluateS_nil (K : ℝ) (stats : RatingState) : evaluateS K stats [] = (stats, 0) := by
  simp [evaluateS, sort_matches]

theorem matchLE_trans (a b c : Match) (hab : matchLE a b = true) (hbc : matchLE b c = true) :
    matchLE a c = true := by
  simp only [matchLE, decide_eq_true_eq] at hab hbc ⊢
  omega

theorem matchLE_total (a b : Match) : (matchLE a b || matchLE b a) = true := by
  simp only [matchLE, Bool.or_eq_true, decide_eq_true_eq]
  omega

theorem mergeSort_pair {α : Type} (le : α → α → Bool) (a b : α) :
    List.mergeSort [a, b] le = if le a b then [a, b] else [b, a] := by
  simp [List.mergeSort, List.splitInTwo, List.splitAt, List.splitAt.go, List.merge]

theorem harness_eq_map (train test : List Match) :
    harness train test = eloKs.map (fun K => (K, run_model K train test)) := by
  simp [harness, eloKs]

/-! ### Claims -/

/-- Claim C1: `EloModel.evaluate` processes the sorted sequence one match at
a time, and for each match the prediction is computed (and compared with the
true winner) from the rating state **before** that match's own update is
applied; the returned value is `correct / total`.  `walkCorrect` is the
recursion that predicts strictly before updating, and `total` is the length
of the input list. -/
theorem evaluate_walk_forward (K : ℝ) (stats : RatingState) (ms : List Match) :
    evaluate K stats ms
      = (if ms.isEmpty then 0
         else (walkCorrect K stats (sort_matches ms) : ℝ) / (ms.length : ℝ)) := by
  rw [evaluate, evaluateS_eq_walk]

/-- Claim C2: for distinct competitors `a ≠ b` and a winner in `{a, b}`,
`EloModel.update` moves both ratings at once by the Elo rule
(`rating + K * (score - expected)` with
`expected_a = 1 / (1 + 10 ^ ((rating_b - rating_a) / 400))`,
`expected_b = 1 - expected_a`, `score_a = 1` iff the winner is `a`,
`score_b = 1 - score_a`) and the sum of the two ratings is preserved. -/
theorem update_zero_sum_pair (K : ℝ) (stats : RatingState) (a b w : Nat)
    (hab : a ≠ b) (_hw : w = a ∨ w = b) :
    update K stats a b w a + update K stats a b w b = stats a + stats b
    ∧ update K stats a b w a
        = stats a + K * ((if w = a then (1 : ℝ) else 0)
            - 1 / (1 + (10 : ℝ) ^ ((stats b - stats a) / 400)))
    ∧ update K stats a b w b
        = stats b + K * ((1 - (if w = a then (1 : ℝ) else 0))
            - (1 - 1 / (1 + (10 : ℝ) ^ ((stats b - stats a) / 400)))) := by
  refine ⟨?_, update_apply_fst K stats a b w hab, update_apply_snd K stats a b w hab⟩
  rw [update_apply_fst K stats a b w hab, update_apply_snd K stats a b w hab]
  ring

/-- Witness for C2: ratings 1500/1500, `K = 32`, competitor 1 beats
competitor 2; the rating sum is preserved. -/
theorem update_zero_sum_pair_witness :
    (1 : Nat) ≠ 2
    ∧ update 32 initialStats 1 2 1 1 + update 32 initialStats 1 2 1 2
        = initialStats 1 + initialStats 2 :=
  ⟨by decide, (update_zero_sum_pair 32 initialStats 1 2 1 (by decide) (Or.inl rfl)).1⟩

/-- Claim C6: `EloModel.predict(a, b)` returns `a` exactly when `a`'s rating
is strictly greater than `b`'s, and returns `b` otherwise; in particular a
tie returns `b`. -/
theorem predict_higher_rating (stats : RatingState) (a b : Nat) :
    predict stats a b = (if stats a > stats b then a else b)
    ∧ (stats a = stats b → predict stats a b = b) := by
  refine ⟨rfl, fun h => ?_⟩
  simp [predict, h]

/-- Witness for C6: on the fresh state both ratings are 1500, and the tie
goes to the second argument. -/
theorem predict_higher_rating_witness : predict initialStats 1 2 = 2 :=
  (predict_higher_rating initialStats 1 2).2 rfl

/-- Claim C7: `EloModel.evaluate` on the empty match list returns exactly 0,
with no division by zero: the empty case is a defined boundary result. -/
theorem evaluate_empty_zero (K : ℝ) (stats : RatingState) : evaluate K stats [] = 0 := by
  simp [evaluate, evaluateS, sort_matches]

/-- Claim C10: `EloModel.fit` is observably identical to
`EloModel.evaluate`: it leaves the rating state in the same final
configuration and returns the same value, namely the walk-forward accuracy
over the sorted sequence (not merely applying updates). -/
theorem fit_eq_evaluate (K : ℝ) (stats : RatingState) (ms : List Match) :
    fitS K stats ms = evaluateS K stats ms
    ∧ fit K stats ms
        = (if ms.isEmpty then 0
           else (walkCorrect K stats (sort_matches ms) : ℝ) / (ms.length : ℝ)) := by
  refine ⟨rfl, ?_⟩
  rw [fit, fitS, evaluateS_eq_walk]

/-- Claim C5: with every referenced basho present in the date index,
`train_test_split` returns exactly the matches dated strictly before the
cutoff as `train` and the rest as `test`, as order-preserving sublists
(filters) of the input, with no match duplicated or dropped. -/
theorem train_test_split_partition (ms : List Match) (basho_dates : Nat → Option String)
    (split_date : String)
    (h : ∀ m ∈ ms, (basho_dates m.basho_id).isSome = true) :
    train_test_split ms basho_dates split_date
      = Except.ok (ms.filter (goes_train basho_dates split_date),
          ms.filter (fun m => ! goes_train basho_dates split_date m))
    ∧ (ms.filter (goes_train basho_dates split_date)).length
        + (ms.filter (fun m => ! goes_train basho_dates split_date m)).length
        = ms.length := by
  refine ⟨?_, (List.length_eq_length_filter_add (goes_train basho_dates split_date)).symm⟩
  induction ms with
  | nil => rfl
  | cons m rest ih =>
    have hm : (basho_dates m.basho_id).isSome = true := h m (List.mem_cons_self m rest)
    have hsplit := ih (fun x hx => h x (List.mem_cons_of_mem m hx))
    obtain ⟨date, hdate⟩ := Option.isSome_iff_exists.mp hm
    have hg : goes_train basho_dates split_date m = strLt date split_date := by
      simp [goes_train, hdate]
    by_cases hlt : strLt date split_date = true
    · simp only [train_test_split, hdate, hsplit, hlt, if_true, List.filter_cons, hg]
      simp [hlt]
    · simp only [train_test_split, hdate, hsplit, List.filter_cons, hg,
        Bool.not_eq_true] at *
      simp [hlt]

/-- Witness for C5: two dated bouts, cutoff between their basho dates; the
split succeeds and partitions them by date. -/
theorem train_test_split_partition_witness :
    (∀ m ∈ [mB, mA], (wDates m.basho_id).isSome = true)
    ∧ train_test_split [mB, mA] wDates "2023-01-01"
        = Except.ok ([mB, mA].filter (goes_train wDates "2023-01-01"),
            [mB, mA].filter (fun m => ! goes_train wDates "2023-01-01" m)) :=
  ⟨by decide, (train_test_split_partition [mB, mA] wDates "2023-01-01" (by decide)).1⟩

/-- Claim C8: when some match's basho id is absent from the date index,
`train_test_split` fails, surfacing an error that carries a basho id with no
date on file (the `KeyError` of the Python lookup). -/
theorem train_test_split_missing_date (ms : List Match)
    (basho_dates : Nat → Option String) (split_date : String)
    (h : ∃ m ∈ ms, basho_dates m.basho_id = none) :
    ∃ bid, train_test_split ms basho_dates split_date = Except.error bid
      ∧ basho_dates bid = none := by
  induction ms with
  | nil => simp at h
  | cons m rest ih =>
    by_cases hm : basho_dates m.basho_id = none
    · exact ⟨m.basho_id, by simp [train_test_split, hm], hm⟩
    · obtain ⟨date, hdate⟩ := Option.ne_none_iff_exists'.mp hm
      have hr : ∃ x ∈ rest, basho_dates x.basho_id = none := by
        obtain ⟨x, hx, hnone⟩ := h
        rcases List.mem_cons.mp hx with hxm | hxr
        · exact absurd (hxm ▸ hnone) hm
        · exact ⟨x, hxr, hnone⟩
      obtain ⟨bid, hsplit, hbid⟩ := ih hr
      exact ⟨bid, by simp [train_test_split, hdate, hsplit], hbid⟩

/-- Witness for C8: a single bout whose basho id 7 is not in the index; the
split fails with an error naming a dateless basho. -/
theorem train_test_split_missing_date_witness :
    (∃ m ∈ [mC], wDates m.basho_id = none)
    ∧ ∃ bid, train_test_split [mC] wDates "2023-01-01" = Except.error bid
        ∧ wDates bid = none :=
  ⟨by decide, train_test_split_missing_date [mC] wDates "2023-01-01" (by decide)⟩

/-- Counterexample to claim C4 as stated: `sort_matches` orders by basho
**id**, not by the basho start date from the index.  With basho 1 dated
later than basho 2, the processed order `[mB, mA]` puts the later-dated
bout first, while the date-keyed order the claim prescribes is `[mA, mB]`. -/
theorem sort_matches_not_by_date :
    sort_matches [mA, mB] = [mB, mA]
    ∧ sort_matches_by_date exDates [mA, mB] = [mA, mB]
    ∧ sort_matches [mA, mB] ≠ sort_matches_by_date exDates [mA, mB] := by
  have h1 : sort_matches [mA, mB] = [mB, mA] := by
    rw [sort_matches, mergeSort_pair, show matchLE mA mB = false from by decide]
    simp
  have h2 : sort_matches_by_date exDates [mA, mB] = [mA, mB] := by
    rw [sort_matches_by_date, mergeSort_pair,
      show date_key_le exDates mA mB = true from by decide]
    simp
  refine ⟨h1, h2, ?_⟩
  rw [h1, h2]
  decide

/-- Claim C4 (amended): any sequential processing by the rating model is
performed in the total order with primary key the **basho id** and secondary
key the day (which coincides with start-date order exactly when basho ids
are monotone in start date): the processed sequence `sort_matches ms` is
sorted under that key, is a permutation of the input regardless of the order
in which the input supplies the matches, and `fit`/`evaluate` thread their
updates through exactly that sequence. -/
theorem sort_matches_by_basho_id_day (ms : List Match) :
    List.Pairwise
      (fun a b : Match =>
        a.basho_id < b.basho_id ∨ (a.basho_id = b.basho_id ∧ a.day ≤ b.day))
      (sort_matches ms)
    ∧ (sort_matches ms).Perm ms
    ∧ ∀ (K : ℝ) (stats : RatingState),
        (fitS K stats ms).1 = walkState K stats (sort_matches ms) := by
  refine ⟨?_, List.mergeSort_perm ms matchLE, ?_⟩
  · have h := List.sorted_mergeSort matchLE_trans matchLE_total ms
    exact h.imp (fun hab => by simpa [matchLE] using hab)
  · intro K stats
    rw [fitS, evaluateS_eq_walk]

/-- Counterexample to claim C3 as stated: the harness never selects a single
`K`; it reports one `(K, train accuracy, test accuracy)` entry per candidate
(five entries), not the single entry of the spec's select-then-refit
protocol. -/
theorem harness_not_single_selection :
    harness [] [] ≠ [spec_selected_report [] []] := by
  intro h
  have hlen := congrArg List.length h
  rw [harness_eq_map] at hlen
  simp [eloKs] at hlen

/-- Claim C3 (amended): after recording each candidate's accuracies, the
harness performs no selection at all: for every candidate `K` in the fixed
list it constructs a fresh rating model, runs `fit` on the train set, then
runs `evaluate` on the test set from the fitted state, and reports all five
`(K, train accuracy, test accuracy)` triples in candidate order. -/
theorem harness_runs_all_candidates (train test : List Match) :
    harness train test
      = eloKs.map (fun K =>
          (K, (fitS K initialStats train).2,
            (evaluateS K (fitS K initialStats train).1 test).2)) := by
  rw [harness_eq_map]
  rfl

/-- Counterexample to claim C9 as stated: with an empty train partition the
harness does not fail — it completes and reports the degenerate all-zero
accuracies for every Elo candidate. -/
theorem harness_empty_train_completes :
    harness [] [] = [(8, 0, 0), (16, 0, 0), (32, 0, 0), (64, 0, 0), (128, 0, 0)] := by
  rw [harness_eq_map]
  simp [run_model, fitS, evaluateS_nil, eloKs]

/-- Claim C9 (amended): the harness has no failure path: its candidate list
is fixed and nonempty, and when the train partition is empty it completes
normally, reporting train accuracy `0` for every Elo candidate rather than
failing. -/
theorem harness_empty_train_degenerate (test : List Match) :
    eloKs ≠ []
    ∧ (harness [] test).map (fun r => r.2.1) = [0, 0, 0, 0, 0] := by
  refine ⟨by simp [eloKs], ?_⟩
  rw [harness_eq_map]
  simp [run_model, fitS, evaluateS_nil, eloKs]
